import Mathlib

/-!
Verification of the vocab-notebook core: the sampler (`sample_vocab` in
vocabnb/vocabnb.py), the transactional review session (`VocabBook` in
vocabnb/vocabnb.py together with the batch operations of vocabnb/db.py), and
the per-word review decision logic of `qa_interface`.

The store is modelled relationally: the sqlite `words` and `memo` tables
become lists of rows, the batch UPDATE and INSERT statements become list
transformations, and the `with conn` transaction of `VocabBook.__exit__`
becomes an all-or-nothing `Except` computation.  Randomness in the sampler is
made explicit: the standard-Gumbel draws become a function parameter and the
final `np.random.shuffle` becomes a permutation parameter.
-/

/-- Row of the sqlite `words` relation created by `db.init_db_if_not_exists`:
word is the primary key, with meaning, nullable pronunciation, examples and an
integer familiarity. -/
structure WordRow where
  word : String
  meaning : String
  pronunciation : Option String
  examples : List String
  familiarity : Int
deriving DecidableEq, Repr

/-- Row of the sqlite `memo` relation: word (foreign key into `words`), date
(stored as an iso string), the familiarity before the action, and the action
(stored with str(), so digits become digit strings). The primary key is the
pair (word, date). -/
structure MemoRow where
  word : String
  date : String
  orig_familiarity : Int
  action : String
deriving DecidableEq, Repr

/-- The persistent store: the two relations of db.py. -/
structure Store where
  words : List WordRow
  memo : List MemoRow
deriving DecidableEq, Repr

/-- Model of `db.update_word_familiarity`: UPDATE words SET familiarity = ?
WHERE word = ? (db.py lines 206-225). Every row whose word matches is set to
the new familiarity; other rows are untouched. -/
def update_word_familiarity (rows : List WordRow) (familiarity : Int) (word : String) :
    List WordRow :=
  rows.map fun r => if r.word == word then { r with familiarity := familiarity } else r

/-- Model of `db.update_word_familiarities` (db.py lines 228-245): executemany
runs the single-row UPDATE once per (familiarity, word) pair, in list order. -/
def update_word_familiarities (rows : List WordRow) (args : List (Int × String)) :
    List WordRow :=
  args.foldl (fun rs p => update_word_familiarity rs p.1 p.2) rows

/-- Model of one INSERT INTO memo row: the insert fails (sqlite IntegrityError)
when the (word, date) primary key collides with an existing memo row or the
word foreign key has no matching words row. -/
def insert_memo_row (s : Store) (m : MemoRow) : Except Unit Store :=
  if (s.words.any fun r => r.word == m.word)
      && !(s.memo.any fun e => e.word == m.word && e.date == m.date) then
    Except.ok { s with memo := s.memo ++ [m] }
  else
    Except.error ()

/-- Model of `db.insert_memos` (db.py lines 93-112): executemany inserts the
rows one by one, in order; inside a transaction the first failure aborts the
whole batch. -/
def insert_memos (s : Store) : List MemoRow → Except Unit Store
  | [] => Except.ok s
  | m :: ms =>
    match insert_memo_row s m with
    | Except.ok s1 => insert_memos s1 ms
    | Except.error e => Except.error e

/-- In-memory pending state of a `VocabBook` session: the `_updated_word_fam`
and `_memo` lists (vocabnb.py lines 92-95). -/
structure BookState where
  updated_word_fam : List (Int × String)
  memo : List MemoRow
deriving DecidableEq, Repr

/-- One call made inside the session scope: `VocabBook.add_fam_update` or
`VocabBook.add_memo`. -/
inductive SessionOp where
  | famUpdate (familiarity : Int) (word : String)
  | addMemo (word : String) (date : String) (orig_familiarity : Int) (action : String)
deriving DecidableEq, Repr

/-- Model of `VocabBook.add_fam_update` and `VocabBook.add_memo` (vocabnb.py
lines 106-116): both simply append to the corresponding pending list. -/
def applyOp (b : BookState) : SessionOp → BookState
  | SessionOp.famUpdate f w => { b with updated_word_fam := b.updated_word_fam ++ [(f, w)] }
  | SessionOp.addMemo w d g a => { b with memo := b.memo ++ [⟨w, d, g, a⟩] }

/-- Replay of a whole sequence of session calls, in order. -/
def applyOps (b : BookState) (ops : List SessionOp) : BookState :=
  ops.foldl applyOp b

/-- The pending state when the session begins: both lists empty. -/
def emptyBook : BookState := ⟨[], []⟩

/-- Model of `VocabBook.__exit__` (vocabnb.py lines 121-129): when an exception
is propagating (abnormal = true) nothing is persisted; otherwise the pending
familiarity updates and then the pending memo rows are committed inside one
`with conn` transaction, so a failure of any insert rolls the whole
transaction back and the store stays as it was. -/
def vocab_book_exit (s : Store) (b : BookState) (abnormal : Bool) : Store :=
  if abnormal then s
  else
    match insert_memos
        { s with words := update_word_familiarities s.words b.updated_word_fam } b.memo with
    | Except.ok s2 => s2
    | Except.error _ => s

/-- The store of the end-to-end scenario of the spec (and of
test_vocabnb.TestVocabBook): words foo(4), bar(5), baz(1), with one
pre-existing memo row for foo. -/
def demoStore : Store :=
  { words :=
      [⟨"foo", "Foo", none, ["foo bar baz"], 4⟩,
       ⟨"bar", "Bar", some "B-a-r", ["bar baz qux", "lorem"], 5⟩,
       ⟨"baz", "Baz", some "B-a-z", [], 1⟩],
    memo := [⟨"foo", "2023-01-05T00:00:00", 5, "+"⟩] }

/-- The pending state of the scenario: foo set to 5, baz set to 3, plus two
memo entries carrying the pre-change familiarity values 4 and 1. -/
def demoBook : BookState :=
  { updated_word_fam := [(5, "foo"), (3, "baz")],
    memo :=
      [⟨"foo", "2023-02-01T00:00:00", 4, "+"⟩,
       ⟨"baz", "2023-02-02T00:00:00", 1, "3"⟩] }

/-- The store the scenario expects after a clean exit: familiarities foo 5,
bar 5, baz 3, and both new memo rows present. -/
def demoFlushed : Store :=
  { words :=
      [⟨"foo", "Foo", none, ["foo bar baz"], 5⟩,
       ⟨"bar", "Bar", some "B-a-r", ["bar baz qux", "lorem"], 5⟩,
       ⟨"baz", "Baz", some "B-a-z", [], 3⟩],
    memo :=
      [⟨"foo", "2023-01-05T00:00:00", 5, "+"⟩,
       ⟨"foo", "2023-02-01T00:00:00", 4, "+"⟩,
       ⟨"baz", "2023-02-02T00:00:00", 1, "3"⟩] }

/-- The familiarity the store reports for a word: the familiarity column of
the first `words` row whose key matches (models `db.find_word`, which does
SELECT ... WHERE word = ? and fetches one row). -/
def fam_lookup : List WordRow → String → Option Int
  | [], _ => none
  | r :: rs, w => if r.word == w then some r.familiarity else fam_lookup rs w

/-- The value of the last pending familiarity update recorded for a word, if
any: last element of the (familiarity, word) list filtered to that word. -/
def last_fam_update (args : List (Int × String)) (w : String) : Option Int :=
  ((args.filter fun p => p.2 == w).getLast?).map Prod.fst

/-- Store for the C5 witness: one word foo at familiarity 2. -/
def c5Store : Store := { words := [⟨"foo", "Foo", none, [], 2⟩], memo := [] }

/-- Pending state for the C5 witness: foo recorded as 3, then as 4. -/
def c5Book : BookState := { updated_word_fam := [(3, "foo"), (4, "foo")], memo := [] }

/-- Familiarity-adjustment action after input validation in `qa_interface`
(vocabnb.py lines 191-206): one of the four symbols or an integer. -/
inductive FamAction where
  | dot
  | dash
  | equals
  | plus
  | num (k : Int)
deriving DecidableEq, Repr

/-- Transition from the current familiarity and the action to the new
familiarity, exactly the if/elif chain of vocabnb.py lines 197-206. -/
def new_fam (familiarity : Int) : FamAction → Int
  | FamAction.dot => familiarity
  | FamAction.dash => max 1 (familiarity - 1)
  | FamAction.equals => min 5 (familiarity + 2)
  | FamAction.plus => 5
  | FamAction.num k => k

/-- Per-word outcome returned by `qa_interface` (vocabnb.py line 209): true,
meaning familiar, when the new familiarity is 1 or strictly below the old
one. -/
def qa_familiar (familiarity : Int) (a : FamAction) : Bool :=
  new_fam familiarity a == 1 || new_fam familiarity a < familiarity

/-- Prefix test on character lists. -/
def charsStartWith : List Char → List Char → Bool
  | [], _ => true
  | _ :: _, [] => false
  | a :: as, b :: bs => a == b && charsStartWith as bs

/-- Substring containment on character lists: the Python `in` operator on
strings, which tests for a contiguous substring. -/
def charsContain (needle : List Char) : List Char → Bool
  | [] => needle.isEmpty
  | b :: bs => charsStartWith needle (b :: bs) || charsContain needle bs

/-- The accepted_action string of vocabnb.py line 175. -/
def accepted_action : List Char := ['.', '-', '=', '+', '1', '2', '3', '4', '5']

/-- Loop condition of vocabnb.py line 177: an input is rejected, and the user
re-prompted, when it is empty or not a substring of accepted_action. -/
def input_rejected (s : List Char) : Bool :=
  s.isEmpty || !(charsContain s accepted_action)

/-- The clamp applied to digit input on vocabnb.py line 192:
min(5, max(0, int(fam_change))). -/
def clamp_digit (k : Int) : Int := min 5 (max 0 k)

/-- Value of a digit character under Python int(). -/
def char_digit (c : Char) : Int := (c.toNat : Int) - 48

/-- Resolution of an accepted single-character input into the action used by
vocabnb.py lines 191-206: the four symbols stay symbolic, any other accepted
character is a digit that goes through int() and the clamp of line 192. -/
def resolve_char_action (c : Char) : FamAction :=
  if c == '.' then FamAction.dot
  else if c == '-' then FamAction.dash
  else if c == '=' then FamAction.equals
  else if c == '+' then FamAction.plus
  else FamAction.num (clamp_digit (char_digit c))

/-- Python slice semantics of l[:k] for an int k, as numpy applies it to a
one-dimensional array: a nonnegative stop takes the first k elements, a
negative stop drops the last -k elements. -/
def pySliceTo {α : Type} (l : List α) (k : Int) : List α :=
  if 0 ≤ k then l.take k.toNat else l.take ((l.length : Int) + k).toNat

/-- Ascending argsort of the indices 0..n-1 by a rational key, ties kept in
index order: models np.argsort on the perturbed scores (ties among the real
Gumbel draws are broken arbitrarily there; a stable order is one such). -/
def argsort (key : Nat → ℚ) (n : Nat) : List Nat :=
  List.insertionSort (fun i j => key i ≤ key j) (List.range n)

/-- The sentinel score written over the score-5 entries of the copied
familiarity array (vocabnb.py line 57). -/
def sentinel : Int := -999999999

/-- Indices of the mandatory words: np.nonzero(fam == 5)[0] (vocabnb.py line
54), in ascending index order. -/
def mandatory_indices (fam : List Int) : List Nat :=
  (List.range fam.length).filter fun i => fam.getD i 0 == 5

/-- The familiarity array after `fam[j5] = -999999999` (vocabnb.py line 57):
the copy of fam with every score-5 entry overwritten by the sentinel. -/
def sentineled (fam : List Int) : List Int :=
  fam.map fun x => if x == 5 then sentinel else x

/-- The perturbed key of index i (vocabnb.py lines 59-61): gg starts as the
standard-Gumbel draw, the sentineled familiarity is added, and the array is
negated so that the ascending argsort orders by descending gumbel plus
familiarity. -/
def gumbel_key (fam : List Int) (gumbel : Nat → ℚ) (i : Nat) : ℚ :=
  -(gumbel i + (((sentineled fam).getD i 0 : Int) : ℚ))

/-- The number of optional (non-mandatory) draws (vocabnb.py line 56):
min(n - n5, max(max_total_vocab - n5, min_non5_vocab)). -/
def n_non5_samples (fam : List Int) (max_total_vocab min_non5_vocab : Int) : Int :=
  min ((fam.length : Int) - (mandatory_indices fam).length)
    (max (max_total_vocab - (mandatory_indices fam).length) min_non5_vocab)

/-- The optional-word draw (vocabnb.py line 62): the slice
np.argsort(gg)[:n_non5_samples]. -/
def optional_draw (fam : List Int) (max_total_vocab min_non5_vocab : Int)
    (gumbel : Nat → ℚ) : List Nat :=
  pySliceTo (argsort (gumbel_key fam gumbel) fam.length)
    (n_non5_samples fam max_total_vocab min_non5_vocab)

/-- Model of `sample_vocab` (vocabnb.py lines 27-65) with the random draws
made explicit: gumbel i is the standard-Gumbel noise np.random.gumbel supplies
for index i, and shuffle is the permutation np.random.shuffle applies to the
concatenated index array. The fancy indexing words[j] raises IndexError when
some selected index is out of range of the words array; that failure is the
none result. -/
def sample_vocab (words : List String) (fam : List Int)
    (max_total_vocab min_non5_vocab : Int) (gumbel : Nat → ℚ)
    (shuffle : List Nat → List Nat) : Option (List String) :=
  let j := shuffle
    (mandatory_indices fam ++ optional_draw fam max_total_vocab min_non5_vocab gumbel)
  if j.all fun i => i < words.length then
    some (j.map fun i => words.getD i "")
  else
    none

/-- The sample size asserted by the specification: N5 plus the value of
max(maxTotal - N5, minNon5) clamped to the interval [0, N - N5]. -/
def claimed_sample_size (fam : List Int) (max_total_vocab min_non5_vocab : Int) : Int :=
  let n5 : Int := (mandatory_indices fam).length
  n5 + min (max (max (max_total_vocab - n5) min_non5_vocab) 0) ((fam.length : Int) - n5)

/-- Read an array from a heap of integer arrays (references are indices). -/
def hread (h : List (List Int)) (r : Nat) : List Int := h.getD r []

/-- Allocate a fresh array on the heap: the new heap and a reference to the
fresh array. -/
def halloc (h : List (List Int)) (a : List Int) : List (List Int) × Nat :=
  (h ++ [a], h.length)

/-- Overwrite the array behind a reference. -/
def hwrite (h : List (List Int)) (r : Nat) (a : List Int) : List (List Int) :=
  h.set r a

/-- sample_vocab with the caller's arrays held in explicit heaps: the words
array lives in strs at wordsRef and the caller's familiarity array in h at
famRef. Following vocabnb.py line 52, np.copy allocates a fresh array, and the
sentinel assignment of line 57 writes through the fresh reference, never
through famRef; the words heap is only ever read. Returns the final string
heap, the final integer heap, and the result. -/
def sample_vocab_heap (strs : List (List String)) (h : List (List Int))
    (wordsRef famRef : Nat) (max_total_vocab min_non5_vocab : Int)
    (gumbel : Nat → ℚ) (shuffle : List Nat → List Nat) :
    List (List String) × List (List Int) × Option (List String) :=
  let p := halloc h (hread h famRef)
  let h1 := p.1
  let cRef := p.2
  let n := (hread h1 cRef).length
  let j5 := (List.range n).filter fun i => (hread h1 cRef).getD i 0 == 5
  let k : Int := min ((n : Int) - j5.length)
    (max (max_total_vocab - j5.length) min_non5_vocab)
  let h2 := hwrite h1 cRef ((hread h1 cRef).map fun x => if x == 5 then sentinel else x)
  let gg : Nat → ℚ := fun i => -(gumbel i + (((hread h2 cRef).getD i 0 : Int) : ℚ))
  let jnon5 := pySliceTo (argsort gg n) k
  let j := shuffle (j5 ++ jnon5)
  let words := strs.getD wordsRef []
  (strs, h2,
    if j.all fun i => i < words.length then some (j.map fun i => words.getD i "") else none)

/-- Helper: a successful memo batch insert leaves the words relation untouched
and appends exactly the batch, in order, to the memo relation. -/
theorem insert_memos_ok_spec (ms : List MemoRow) :
    ∀ (s s2 : Store), insert_memos s ms = Except.ok s2 →
      s2.words = s.words ∧ s2.memo = s.memo ++ ms := by
  induction ms with
  | nil =>
    intro s s2 h
    cases h
    exact ⟨rfl, by simp⟩
  | cons m ms ih =>
    intro s s2 h
    unfold insert_memos at h
    unfold insert_memo_row at h
    by_cases hc : ((s.words.any fun r => r.word == m.word)
        && !(s.memo.any fun e => e.word == m.word && e.date == m.date)) = true
    · rw [if_pos hc] at h
      have h2 := ih _ _ h
      refine ⟨h2.1, ?_⟩
      rw [h2.2]
      simp
    · rw [if_neg hc] at h
      cases h

/-- C1: if the session scope exits abnormally, no pending familiarity update
and no pending memo entry is persisted: for every starting store and every
sequence of add_fam_update / add_memo calls made inside the scope, the store
after the abnormal exit is identical to the store when the session began. -/
theorem abnormal_exit_preserves_store (s : Store) (ops : List SessionOp) :
    vocab_book_exit s (applyOps emptyBook ops) true = s := rfl

/-- C2: on normal exit every pending familiarity update and every pending memo
entry is persisted, updates first and memo rows second, as one atomic unit:
when the transaction succeeds the resulting words relation is exactly the
batch-updated one and the memo relation is the old one with the pending rows
appended; when any memo insert fails the transaction rolls back and neither
mutation is visible. -/
theorem normal_exit_flushes :
    (∀ (s : Store) (b : BookState) (s2 : Store),
      insert_memos { s with words := update_word_familiarities s.words b.updated_word_fam }
          b.memo = Except.ok s2 →
        vocab_book_exit s b false = s2 ∧
        s2.words = update_word_familiarities s.words b.updated_word_fam ∧
        s2.memo = s.memo ++ b.memo) ∧
    (∀ (s : Store) (b : BookState),
      insert_memos { s with words := update_word_familiarities s.words b.updated_word_fam }
          b.memo = Except.error () →
        vocab_book_exit s b false = s) := by
  constructor
  · intro s b s2 h
    have h2 := insert_memos_ok_spec b.memo _ _ h
    refine ⟨?_, h2.1, h2.2⟩
    unfold vocab_book_exit
    rw [if_neg (by simp), h]
  · intro s b h
    unfold vocab_book_exit
    rw [if_neg (by simp), h]

/-- Witness for C2: the clean-exit scenario of the spec evaluated concretely;
the store holds foo 5, bar 5, baz 3 and both memo entries with their
pre-change familiarity values. -/
theorem normal_exit_flushes_witness :
    vocab_book_exit demoStore demoBook false = demoFlushed :=
  (normal_exit_flushes.1 demoStore demoBook demoFlushed (by rfl)).1

/-- Helper: collapsing two constant Option maps. -/
theorem option_map_const_map (o : Option Int) (f v : Int) :
    ((o.map fun _ => f).map fun _ => v) = o.map fun _ => v := by
  cases o <;> rfl

/-- Helper: one single-word UPDATE changes the looked-up familiarity to the
new value exactly when the updated word is the looked-up word. -/
theorem fam_lookup_update_one (rows : List WordRow) (f : Int) (w0 w : String) :
    fam_lookup (update_word_familiarity rows f w0) w =
      if w0 = w then (fam_lookup rows w).map fun _ => f else fam_lookup rows w := by
  induction rows with
  | nil => simp [fam_lookup, update_word_familiarity]
  | cons r t ih =>
    simp only [update_word_familiarity, List.map_cons] at *
    simp only [beq_iff_eq] at *
    by_cases h0 : r.word = w0
    · by_cases h1 : r.word = w
      · subst h1
        subst h0
        simp [fam_lookup]
      · subst h0
        simp [fam_lookup, beq_iff_eq, h1, ih]
    · by_cases h1 : r.word = w
      · subst h1
        have h2 : ¬ (w0 = r.word) := fun hc => h0 hc.symm
        simp [fam_lookup, beq_iff_eq, h0, h2]
      · simp [fam_lookup, beq_iff_eq, h0, h1, ih]

/-- Helper: how the last pending update for a word evolves when one more
recorded call is prepended. -/
theorem last_fam_update_cons (f : Int) (w0 : String) (rest : List (Int × String)) (w : String) :
    last_fam_update ((f, w0) :: rest) w =
      match last_fam_update rest w with
      | some v => some v
      | none => if w0 = w then some f else none := by
  unfold last_fam_update
  rw [List.filter_cons]
  by_cases h0 : w0 = w
  · subst h0
    simp only [beq_self_eq_true, if_true]
    cases hF : rest.filter (fun q => q.2 == w0) with
    | nil => simp
    | cons q qs =>
      rw [List.getLast?_cons_cons]
      cases hL : (q :: qs).getLast? with
      | none => simp at hL
      | some a => simp [hL]
  · simp only [show (((f, w0).2 == w) : Bool) = false from beq_eq_false_iff_ne.mpr h0,
      Bool.false_eq_true, if_false]
    cases hF : rest.filter (fun q => q.2 == w) with
    | nil => simp [h0]
    | cons q qs =>
      cases hL : (q :: qs).getLast? with
      | none => simp at hL
      | some a => simp [hL, h0]

/-- Helper: looking a word up after the whole batch UPDATE yields the last
recorded value for that word when there is one, and is unchanged otherwise. -/
theorem fam_lookup_updates (args : List (Int × String)) :
    ∀ (rows : List WordRow) (w : String),
      fam_lookup (update_word_familiarities rows args) w =
        match last_fam_update args w with
        | some v => (fam_lookup rows w).map fun _ => v
        | none => fam_lookup rows w := by
  induction args with
  | nil => intro rows w; simp [update_word_familiarities, last_fam_update]
  | cons p rest ih =>
    intro rows w
    have hstep : update_word_familiarities rows (p :: rest)
        = update_word_familiarities (update_word_familiarity rows p.1 p.2) rest := rfl
    rw [hstep, ih]
    have hcons := last_fam_update_cons p.1 p.2 rest w
    rw [show ((p.1, p.2) : Int × String) = p from rfl] at hcons
    rw [hcons, fam_lookup_update_one]
    cases hr : last_fam_update rest w with
    | some v =>
      by_cases h0 : p.2 = w
      · simp [h0]
        cases fam_lookup rows w <;> rfl
      · simp [h0]
    | none =>
      by_cases h0 : p.2 = w <;> simp [h0]

/-- C5: last write wins through the flush: if the session recorded any
familiarity updates for a word present in the store, then after a clean,
successfully committed exit the store holds exactly the value of the last
recorded call for that word, never an earlier one. -/
theorem last_fam_update_wins (s : Store) (b : BookState) (s2 : Store) (w : String) (v : Int)
    (hok : insert_memos { s with words := update_word_familiarities s.words b.updated_word_fam }
        b.memo = Except.ok s2)
    (hlast : last_fam_update b.updated_word_fam w = some v)
    (hmem : (fam_lookup s.words w).isSome = true) :
    fam_lookup (vocab_book_exit s b false).words w = some v := by
  have hexit : vocab_book_exit s b false = s2 := by
    unfold vocab_book_exit
    rw [if_neg (by simp), hok]
  rw [hexit, (insert_memos_ok_spec _ _ _ hok).1, fam_lookup_updates, hlast]
  obtain ⟨f0, hf0⟩ := Option.isSome_iff_exists.mp hmem
  rw [hf0]
  rfl

/-- Witness for C5: recording 3 then 4 for foo and exiting cleanly persists 4,
never 3. -/
theorem last_fam_update_wins_witness :
    fam_lookup (vocab_book_exit c5Store c5Book false).words "foo" = some 4 :=
  last_fam_update_wins c5Store c5Book
    { words := [⟨"foo", "Foo", none, [], 4⟩], memo := [] } "foo" 4 (by rfl) (by rfl) (by rfl)

/-- C6: for every familiarity in [1,5] the accepted symbolic actions follow
the transition table: dot keeps the score, dash is max(1, f-1) and clamps to 1
at the floor, equals is min(5, f+2) and clamps to 5 at the ceiling, plus sets
5. -/
theorem familiarity_transition_table (f : Int) (h1 : 1 ≤ f) (h5 : f ≤ 5) :
    new_fam f FamAction.dot = f ∧
    new_fam f FamAction.dash = max 1 (f - 1) ∧
    (f = 1 → new_fam f FamAction.dash = 1) ∧
    new_fam f FamAction.equals = min 5 (f + 2) ∧
    (f = 5 → new_fam f FamAction.equals = 5) ∧
    new_fam f FamAction.plus = 5 := by
  refine ⟨rfl, rfl, ?_, rfl, ?_, rfl⟩
  · intro he
    subst he
    rfl
  · intro he
    subst he
    rfl

/-- Witness for C6: the table evaluated at the two clamped corners. -/
theorem familiarity_transition_table_witness :
    new_fam 1 FamAction.dash = 1 ∧ new_fam 5 FamAction.equals = 5 :=
  ⟨(familiarity_transition_table 1 (by decide) (by decide)).2.2.1 rfl,
   (familiarity_transition_table 5 (by decide) (by decide)).2.2.2.2.1 rfl⟩

/-- Counterexample to C7: at familiarity 1 the no-op action is classified as
familiar (the outcome is true, new == 1 holds), not as unfamiliar. -/
theorem dot_familiar_at_one : qa_familiar 1 FamAction.dot = true := by decide

/-- C7 (amended): the no-op action is classified as unfamiliar for every
familiarity in [2,5]; at familiarity 1 it is classified as familiar because
the unchanged score equals 1. -/
theorem dot_unfamiliar_above_one (f : Int) (h2 : 2 ≤ f) (h5 : f ≤ 5) :
    qa_familiar f FamAction.dot = false := by
  simp only [qa_familiar, new_fam, Bool.or_eq_false_iff, beq_eq_false_iff_ne,
    decide_eq_false_iff_not]
  omega

/-- Witness for C7 (amended): the no-op action at familiarity 2 queues the
word for review. -/
theorem dot_unfamiliar_above_one_witness : qa_familiar 2 FamAction.dot = false :=
  dot_unfamiliar_above_one 2 (by decide) (by decide)

/-- Counterexample to C8: the literal digit 0 is not accepted at the action
prompt; it is rejected and re-prompted, because accepted_action only lists the
digits 1 to 5. -/
theorem digit_zero_rejected : input_rejected ['0'] = true := by decide

/-- C8 (amended): every literal digit 1 through 5 entered at the action prompt
is accepted, the input clamp min(5, max(0, d)) leaves it unchanged, and the
digit becomes the new familiarity as-is for every current score; the digit 0
is rejected and re-prompted. -/
theorem digits_one_to_five_accepted (d : Int) (h1 : 1 ≤ d) (h5 : d ≤ 5) :
    input_rejected [Char.ofNat (48 + d.toNat)] = false ∧
    clamp_digit d = d ∧
    (∀ f : Int, new_fam f (resolve_char_action (Char.ofNat (48 + d.toNat))) = d) := by
  interval_cases d
  · exact ⟨by decide, by decide, fun f => rfl⟩
  · exact ⟨by decide, by decide, fun f => rfl⟩
  · exact ⟨by decide, by decide, fun f => rfl⟩
  · exact ⟨by decide, by decide, fun f => rfl⟩
  · exact ⟨by decide, by decide, fun f => rfl⟩

/-- Witness for C8 (amended): digit 3 is accepted and sets the familiarity to
3 from a current score of 5. -/
theorem digits_one_to_five_accepted_witness :
    input_rejected [Char.ofNat (48 + (3 : Int).toNat)] = false ∧
    new_fam 5 (resolve_char_action (Char.ofNat (48 + (3 : Int).toNat))) = 3 := by
  have h := digits_one_to_five_accepted 3 (by decide) (by decide)
  exact ⟨h.1, h.2.2 5⟩

/-- Helper: the argsort is a permutation of the index range. -/
theorem argsort_perm (key : Nat → ℚ) (n : Nat) :
    List.Perm (argsort key n) (List.range n) :=
  List.perm_insertionSort _ _

/-- Helper: the argsort lists its indices in ascending key order. -/
theorem argsort_pairwise (key : Nat → ℚ) (n : Nat) :
    (argsort key n).Pairwise fun i j => key i ≤ key j := by
  haveI h1 : IsTotal Nat fun i j => key i ≤ key j := ⟨fun a b => le_total (key a) (key b)⟩
  haveI h2 : IsTrans Nat fun i j => key i ≤ key j := ⟨fun a b c hab hbc => le_trans hab hbc⟩
  exact List.sorted_insertionSort _ _

/-- Helper: splitting a count over a predicate and its negation. -/
theorem countP_not_add {α : Type} (p : α → Bool) (l : List α) :
    l.countP p + l.countP (fun a => !(p a)) = l.length := by
  induction l with
  | nil => rfl
  | cons a t ih =>
    rw [List.countP_cons, List.countP_cons]
    cases hp : p a <;> simp [hp] <;> omega

/-- Helper: in a list sorted ascending by key, in which every element
satisfying P has a strictly smaller key than every element violating P, any
prefix no longer than the number of P-elements consists of P-elements only. -/
theorem sorted_prefix_all {α : Type} (key : α → ℚ) (P : α → Bool) :
    ∀ (l : List α), (l.Pairwise fun a b => key a ≤ key b) →
      (∀ a ∈ l, ∀ b ∈ l, P a = true → P b = false → key a < key b) →
      ∀ (k : Nat), k ≤ l.countP P → ∀ x ∈ l.take k, P x = true := by
  intro l
  induction l with
  | nil =>
    intro _ _ k _ x hx
    simp at hx
  | cons h t ih =>
    intro hs hsep k hk x hx
    cases k with
    | zero => simp at hx
    | succ k =>
      have hPh : P h = true := by
        cases hph : P h
        · exfalso
          have hcount : (h :: t).countP P = t.countP P := by
            rw [List.countP_cons, hph]
            simp
          have hpos : 0 < t.countP P := by omega
          obtain ⟨b, hb, hPb⟩ := List.countP_pos_iff.mp hpos
          have hle : key h ≤ key b := (List.pairwise_cons.mp hs).1 b hb
          have hlt : key b < key h :=
            hsep b (List.mem_cons_of_mem _ hb) h (List.mem_cons_self _ _) hPb hph
          exact absurd hle (not_le.mpr hlt)
        · rfl
      rw [List.take_succ_cons] at hx
      rcases List.mem_cons.mp hx with hxh | hx2
      · rw [hxh]
        exact hPh
      · refine ih hs.of_cons
          (fun a ha b hb => hsep a (List.mem_cons_of_mem _ ha) b (List.mem_cons_of_mem _ hb))
          k ?_ x hx2
        rw [List.countP_cons, hPh] at hk
        simp at hk
        omega

/-- Helper: the number of non-mandatory indices in the index range. -/
theorem countP_non5_range (fam : List Int) :
    (List.range fam.length).countP (fun i => !(fam.getD i 0 == 5))
      = fam.length - (mandatory_indices fam).length := by
  have h5 : (mandatory_indices fam).length
      = (List.range fam.length).countP (fun i => fam.getD i 0 == 5) := by
    rw [mandatory_indices, List.countP_eq_length_filter]
  have hsum := countP_not_add (fun i => fam.getD i 0 == 5) (List.range fam.length)
  rw [List.length_range] at hsum
  omega

/-- Helper: the sentineled array agrees with the original except on score-5
entries, which hold the sentinel. -/
theorem sentineled_getD (fam : List Int) (i : Nat) (h : i < fam.length) :
    (sentineled fam).getD i 0 = if fam.getD i 0 = 5 then sentinel else fam.getD i 0 := by
  have h2 : i < (sentineled fam).length := by
    rw [sentineled, List.length_map]
    exact h
  rw [List.getD_eq_getElem _ _ h2, List.getD_eq_getElem _ _ h]
  simp [sentineled, beq_iff_eq]

/-- Helper: a nodup word array indexes injectively through getD. -/
theorem nodup_getD_inj (ws : List String) (hw : ws.Nodup) (a b : Nat)
    (ha : a < ws.length) (hb : b < ws.length) (h : ws.getD a "" = ws.getD b "") : a = b := by
  rw [List.getD_eq_getElem _ _ ha, List.getD_eq_getElem _ _ hb] at h
  have hinj := List.nodup_iff_injective_get.mp hw
  have h2 : ws.get ⟨a, ha⟩ = ws.get ⟨b, hb⟩ := by simpa using h
  exact congrArg Fin.val (hinj h2)

/-- Helper: basic facts about the mandatory index list: its members are
in-range score-5 indices, it has no duplicates, and it is no longer than the
array. -/
theorem mandatory_indices_spec (fam : List Int) :
    (∀ x ∈ mandatory_indices fam, x < fam.length ∧ fam.getD x 0 = 5) ∧
    (mandatory_indices fam).Nodup ∧
    (mandatory_indices fam).length ≤ fam.length := by
  refine ⟨?_, List.Nodup.filter _ (List.nodup_range _), ?_⟩
  · intro x hx
    rw [mandatory_indices] at hx
    have h1 := List.mem_of_mem_filter hx
    have h2 := List.of_mem_filter hx
    exact ⟨List.mem_range.mp h1, by simpa [beq_iff_eq] using h2⟩
  · rw [mandatory_indices]
    have h := List.length_filter_le (fun i => fam.getD i 0 == 5) (List.range fam.length)
    simpa using h

/-- Helper: when the requested draw count is nonnegative, the optional draw is
the prefix of the argsort of that length; all the drawn indices are in-range
non-mandatory indices and there are no duplicates among them. Requires the
familiarity scores in [1,5] and the Gumbel noise bounded well below the
sentinel magnitude, which is what keeps the sentineled mandatory entries at
the bottom of the perturbed order. -/
theorem optional_draw_spec (fam : List Int) (maxT minN5 : Int) (gumbel : Nat → ℚ)
    (hfam : ∀ i, i < fam.length → 1 ≤ fam.getD i 0 ∧ fam.getD i 0 ≤ 5)
    (hg : ∀ i, -100000000 ≤ gumbel i ∧ gumbel i ≤ 100000000)
    (hk0 : 0 ≤ max (maxT - ((mandatory_indices fam).length : Int)) minN5) :
    optional_draw fam maxT minN5 gumbel
      = (argsort (gumbel_key fam gumbel) fam.length).take
          (n_non5_samples fam maxT minN5).toNat ∧
    (optional_draw fam maxT minN5 gumbel).length = (n_non5_samples fam maxT minN5).toNat ∧
    (∀ x ∈ optional_draw fam maxT minN5 gumbel, x < fam.length ∧ fam.getD x 0 ≠ 5) ∧
    (optional_draw fam maxT minN5 gumbel).Nodup := by
  have hn5 : (mandatory_indices fam).length ≤ fam.length := (mandatory_indices_spec fam).2.2
  have hk_nonneg : 0 ≤ n_non5_samples fam maxT minN5 := by
    rw [n_non5_samples]
    refine le_min (by omega) hk0
  have hk_le : n_non5_samples fam maxT minN5
      ≤ (fam.length : Int) - (mandatory_indices fam).length := by
    rw [n_non5_samples]
    exact min_le_left _ _
  have horder_len : (argsort (gumbel_key fam gumbel) fam.length).length = fam.length := by
    rw [(argsort_perm _ _).length_eq, List.length_range]
  have horder_nodup : (argsort (gumbel_key fam gumbel) fam.length).Nodup :=
    (argsort_perm _ _).nodup_iff.mpr (List.nodup_range _)
  have horder_mem : ∀ x ∈ argsort (gumbel_key fam gumbel) fam.length, x < fam.length := by
    intro x hx
    exact List.mem_range.mp ((argsort_perm _ _).mem_iff.mp hx)
  have hdraw : optional_draw fam maxT minN5 gumbel
      = (argsort (gumbel_key fam gumbel) fam.length).take
          (n_non5_samples fam maxT minN5).toNat := by
    rw [optional_draw, pySliceTo, if_pos hk_nonneg]
  have hsep : ∀ a ∈ argsort (gumbel_key fam gumbel) fam.length,
      ∀ b ∈ argsort (gumbel_key fam gumbel) fam.length,
      (!(fam.getD a 0 == 5)) = true → (!(fam.getD b 0 == 5)) = false →
      gumbel_key fam gumbel a < gumbel_key fam gumbel b := by
    intro a ha b hb hPa hPb
    have ha2 : a < fam.length := horder_mem a ha
    have hb2 : b < fam.length := horder_mem b hb
    have hane : ¬ (fam.getD a 0 = 5) := by
      simpa [beq_iff_eq] using hPa
    have hbeq : fam.getD b 0 = 5 := by
      simpa [beq_iff_eq] using hPb
    rw [gumbel_key, gumbel_key, sentineled_getD fam a ha2, sentineled_getD fam b hb2,
      if_neg hane, if_pos hbeq]
    have hfa := (hfam a ha2).1
    have hfa2 : (1 : ℚ) ≤ ((fam.getD a 0 : Int) : ℚ) := by exact_mod_cast hfa
    have hs : ((sentinel : Int) : ℚ) = -999999999 := by
      rw [sentinel]
      norm_num
    have hga := hg a
    have hgb := hg b
    rw [hs]
    linarith [hga.1, hga.2, hgb.1, hgb.2]
  have hcount : (n_non5_samples fam maxT minN5).toNat
      ≤ (argsort (gumbel_key fam gumbel) fam.length).countP
          (fun i => !(fam.getD i 0 == 5)) := by
    rw [(argsort_perm _ _).countP_eq, countP_non5_range]
    omega
  have hall : ∀ x ∈ optional_draw fam maxT minN5 gumbel,
      (!(fam.getD x 0 == 5)) = true := by
    rw [hdraw]
    exact sorted_prefix_all (gumbel_key fam gumbel) (fun i => !(fam.getD i 0 == 5)) _
      (argsort_pairwise _ _) hsep _ hcount
  refine ⟨hdraw, ?_, ?_, ?_⟩
  · rw [hdraw, List.length_take, horder_len]
    omega
  · intro x hx
    refine ⟨?_, ?_⟩
    · have hx2 : x ∈ argsort (gumbel_key fam gumbel) fam.length := by
        rw [hdraw] at hx
        exact (List.take_sublist _ _).mem hx
      exact horder_mem x hx2
    · have := hall x hx
      simpa [beq_iff_eq] using this
  · rw [hdraw]
    exact List.Nodup.sublist (List.take_sublist _ _) horder_nodup

/-- C3 (amended): whenever the requested draw count max(maxTotal - N5,
minNon5) is nonnegative, the sampler returns exactly N5 + k words with k =
clamp(max(maxTotal - N5, minNon5), 0, N - N5), every mandatory (score-5) word
appears exactly once, and there are no duplicate words; the words are assumed
pairwise distinct (they come from a keyed relation) and the Gumbel noise
bounded well below the sentinel magnitude. For a negative requested count the
Python negative-slice semantics make the claimed clamped formula wrong. -/
theorem sample_vocab_size_and_membership
    (words : List String) (fam : List Int) (maxT minN5 : Int)
    (gumbel : Nat → ℚ) (shuffle : List Nat → List Nat)
    (hlen : words.length = fam.length)
    (hwn : words.Nodup)
    (hfam : ∀ i, i < fam.length → 1 ≤ fam.getD i 0 ∧ fam.getD i 0 ≤ 5)
    (hg : ∀ i, -100000000 ≤ gumbel i ∧ gumbel i ≤ 100000000)
    (hsh : ∀ l, List.Perm (shuffle l) l)
    (hk0 : 0 ≤ max (maxT - ((mandatory_indices fam).length : Int)) minN5) :
    ∃ res, sample_vocab words fam maxT minN5 gumbel shuffle = some res ∧
      (res.length : Int) = claimed_sample_size fam maxT minN5 ∧
      (∀ i ∈ mandatory_indices fam, res.count (words.getD i "") = 1) ∧
      res.Nodup := by
  obtain ⟨hdraw, hdlen, hdmem, hdnodup⟩ := optional_draw_spec fam maxT minN5 gumbel hfam hg hk0
  obtain ⟨hmmem, hmnodup, hmlen⟩ := mandatory_indices_spec fam
  have hperm : List.Perm
      (shuffle (mandatory_indices fam ++ optional_draw fam maxT minN5 gumbel))
      (mandatory_indices fam ++ optional_draw fam maxT minN5 gumbel) := hsh _
  have hjmem : ∀ x ∈ mandatory_indices fam ++ optional_draw fam maxT minN5 gumbel,
      x < fam.length := by
    intro x hx
    rcases List.mem_append.mp hx with h | h
    · exact (hmmem x h).1
    · exact (hdmem x h).1
  have hjnodup : (mandatory_indices fam ++ optional_draw fam maxT minN5 gumbel).Nodup := by
    rw [List.nodup_append]
    refine ⟨hmnodup, hdnodup, ?_⟩
    intro a ha hb
    exact (hdmem a hb).2 (hmmem a ha).2
  have hall : (shuffle (mandatory_indices fam ++ optional_draw fam maxT minN5 gumbel)).all
      (fun i => decide (i < words.length)) = true := by
    rw [List.all_eq_true]
    intro x hx
    refine decide_eq_true ?_
    rw [hlen]
    exact hjmem x (hperm.mem_iff.mp hx)
  have hres : sample_vocab words fam maxT minN5 gumbel shuffle
      = some ((shuffle (mandatory_indices fam ++ optional_draw fam maxT minN5 gumbel)).map
          fun i => words.getD i "") := by
    simp only [sample_vocab]
    rw [if_pos hall]
  have hnodupres : ((shuffle (mandatory_indices fam
      ++ optional_draw fam maxT minN5 gumbel)).map fun i => words.getD i "").Nodup := by
    refine List.Nodup.map_on ?_ (hperm.nodup_iff.mpr hjnodup)
    intro a ha b hb hab
    have ha2 : a < words.length := by
      rw [hlen]
      exact hjmem a (hperm.mem_iff.mp ha)
    have hb2 : b < words.length := by
      rw [hlen]
      exact hjmem b (hperm.mem_iff.mp hb)
    exact nodup_getD_inj words hwn a b ha2 hb2 hab
  have hk_nonneg : 0 ≤ n_non5_samples fam maxT minN5 := by
    rw [n_non5_samples]
    refine le_min (by omega) hk0
  refine ⟨_, hres, ?_, ?_, hnodupres⟩
  · rw [List.length_map, hperm.length_eq, List.length_append, hdlen]
    simp only [claimed_sample_size]
    rw [max_eq_left hk0, n_non5_samples]
    push_cast
    rw [Int.toNat_of_nonneg (by rw [n_non5_samples] at hk_nonneg; exact hk_nonneg)]
    rw [min_comm]
  · intro i hi
    have himem : i ∈ mandatory_indices fam ++ optional_draw fam maxT minN5 gumbel :=
      List.mem_append.mpr (Or.inl hi)
    have hresmem : words.getD i "" ∈ (shuffle (mandatory_indices fam
        ++ optional_draw fam maxT minN5 gumbel)).map (fun i => words.getD i "") :=
      List.mem_map.mpr ⟨i, hperm.mem_iff.mpr himem, rfl⟩
    exact List.count_eq_one_of_mem hnodupres hresmem

/-- Witness for C3 (amended): two words with scores 5 and 1, maxTotal 2,
minNon5 0: the sampler returns both words, the mandatory word once, no
duplicates, and the size formula holds. -/
theorem sample_vocab_size_and_membership_witness :
    ∃ res, sample_vocab ["a", "b"] [5, 1] 2 0 (fun _ => 0) id = some res ∧
      (res.length : Int) = claimed_sample_size [5, 1] 2 0 ∧
      (∀ i ∈ mandatory_indices [5, 1],
        res.count ((["a", "b"] : List String).getD i "") = 1) ∧
      res.Nodup :=
  sample_vocab_size_and_membership ["a", "b"] [5, 1] 2 0 (fun _ => 0) id rfl (by decide)
    (by decide) (fun _ => ⟨by norm_num, by norm_num⟩) (fun l => List.Perm.refl l) (by decide)

/-- Counterexample to C3 as stated for every maxTotal and minNon5: with two
score-1 words and maxTotal = minNon5 = -1, the requested count becomes the
negative slice bound -1, Python slice semantics keep one element, and the
sampler returns one word where the claimed clamped formula says zero. -/
theorem sample_vocab_size_counterexample :
    (sample_vocab ["a", "b"] [1, 1] (-1) (-1) (fun _ => 0) id).map List.length = some 1 ∧
    claimed_sample_size [1, 1] (-1) (-1) = 0 := by
  constructor
  · norm_num [sample_vocab, optional_draw, argsort, gumbel_key, sentineled, sentinel,
      mandatory_indices, n_non5_samples, pySliceTo, List.insertionSort, List.orderedInsert,
      List.range_succ, List.filter_cons]
  · norm_num [claimed_sample_size, mandatory_indices, List.range_succ, List.filter_cons]

/-- C4 (amended): the optional draw is a Gumbel-top-k in the opposite
direction from the one the claim states: the perturbed score of an optional
index is the Gumbel noise plus the raw familiarity (negated once, jointly, for
the ascending argsort), so the k selected optional indices are exactly the
optional indices with the largest gumbel-plus-familiarity values — weights
exp(+familiarity), matching the docstring of sample_vocab, not
exp(-familiarity). Stated for distinct perturbed values (Gumbel ties have
probability zero). -/
theorem optional_draw_largest_gumbel_plus_fam
    (fam : List Int) (maxT minN5 : Int) (gumbel : Nat → ℚ)
    (hfam : ∀ i, i < fam.length → 1 ≤ fam.getD i 0 ∧ fam.getD i 0 ≤ 5)
    (hg : ∀ i, -100000000 ≤ gumbel i ∧ gumbel i ≤ 100000000)
    (hk0 : 0 ≤ max (maxT - ((mandatory_indices fam).length : Int)) minN5)
    (hinj : ∀ a, a < fam.length → ∀ b, b < fam.length → a ≠ b →
      gumbel a + ((fam.getD a 0 : Int) : ℚ) ≠ gumbel b + ((fam.getD b 0 : Int) : ℚ)) :
    ∀ i ∈ optional_draw fam maxT minN5 gumbel, fam.getD i 0 ≠ 5 ∧
      ∀ i2, i2 < fam.length → fam.getD i2 0 ≠ 5 →
        i2 ∉ optional_draw fam maxT minN5 gumbel →
        gumbel i2 + ((fam.getD i2 0 : Int) : ℚ) < gumbel i + ((fam.getD i 0 : Int) : ℚ) := by
  obtain ⟨hdraw, hdlen, hdmem, hdnodup⟩ := optional_draw_spec fam maxT minN5 gumbel hfam hg hk0
  intro i hi
  refine ⟨(hdmem i hi).2, ?_⟩
  intro i2 hi2len hi2non5 hi2out
  have hi2order : i2 ∈ argsort (gumbel_key fam gumbel) fam.length :=
    (argsort_perm _ _).mem_iff.mpr (List.mem_range.mpr hi2len)
  have hsplit := List.take_append_drop (n_non5_samples fam maxT minN5).toNat
    (argsort (gumbel_key fam gumbel) fam.length)
  have hi2drop : i2 ∈ (argsort (gumbel_key fam gumbel) fam.length).drop
      (n_non5_samples fam maxT minN5).toNat := by
    rcases List.mem_append.mp (by rw [hsplit]; exact hi2order) with h | h
    · exact absurd (by rw [hdraw]; exact h) hi2out
    · exact h
  have hpair := argsort_pairwise (gumbel_key fam gumbel) fam.length
  rw [← hsplit, List.pairwise_append] at hpair
  have hle : gumbel_key fam gumbel i ≤ gumbel_key fam gumbel i2 :=
    hpair.2.2 i (by rw [← hdraw]; exact hi) i2 hi2drop
  have hine : i ≠ i2 := by
    intro hc
    rw [hc] at hi
    exact hi2out hi
  have hilen : i < fam.length := (hdmem i hi).1
  have hinon5 : fam.getD i 0 ≠ 5 := (hdmem i hi).2
  rw [gumbel_key, gumbel_key, sentineled_getD fam i hilen, sentineled_getD fam i2 hi2len,
    if_neg hinon5, if_neg hi2non5] at hle
  have hne : gumbel i2 + ((fam.getD i2 0 : Int) : ℚ)
      ≠ gumbel i + ((fam.getD i 0 : Int) : ℚ) :=
    hinj i2 hi2len i hilen (fun hc => hine hc.symm)
  have hle2 : gumbel i2 + ((fam.getD i2 0 : Int) : ℚ)
      ≤ gumbel i + ((fam.getD i 0 : Int) : ℚ) := by linarith
  exact lt_of_le_of_ne hle2 hne

/-- Counterexample to C4: with scores [1, 4], no mandatory words, one optional
draw and zero Gumbel noise, the claimed perturbation (noise plus negated
familiarity) is largest at index 0 (0 - 1 > 0 - 4), yet the code draws index 1
and returns the second word: the code adds the raw familiarity, so larger
scores win, not smaller ones. -/
theorem sample_gumbel_direction_counterexample :
    sample_vocab ["a", "b"] [1, 4] 1 0 (fun _ => 0) id = some ["b"] ∧
    optional_draw [1, 4] 1 0 (fun _ => 0) = [1] ∧
    (0 : ℚ) + -1 > (0 : ℚ) + -4 := by
  refine ⟨?_, ?_, by norm_num⟩
  · norm_num [sample_vocab, optional_draw, argsort, gumbel_key, sentineled, sentinel,
      mandatory_indices, n_non5_samples, pySliceTo, List.insertionSort, List.orderedInsert,
      List.range_succ, List.filter_cons]
  · norm_num [optional_draw, argsort, gumbel_key, sentineled, sentinel,
      mandatory_indices, n_non5_samples, pySliceTo, List.insertionSort, List.orderedInsert,
      List.range_succ, List.filter_cons]

/-- Witness for C4 (amended): on scores [1, 4] with zero noise the drawn index
is 1, it is optional, and the undrawn optional index 0 has the strictly
smaller gumbel-plus-familiarity value. -/
theorem optional_draw_largest_witness :
    ([1, 4] : List Int).getD 1 0 ≠ 5 ∧
    (0 : ℚ) + ((([1, 4] : List Int).getD 0 0 : Int) : ℚ)
      < (0 : ℚ) + ((([1, 4] : List Int).getD 1 0 : Int) : ℚ) := by
  have hdr : optional_draw [1, 4] 1 0 (fun _ => 0) = [1] := by
    norm_num [optional_draw, argsort, gumbel_key, sentineled, sentinel,
      mandatory_indices, n_non5_samples, pySliceTo, List.insertionSort, List.orderedInsert,
      List.range_succ, List.filter_cons]
  have h := optional_draw_largest_gumbel_plus_fam [1, 4] 1 0 (fun _ => 0) (by decide)
    (fun _ => ⟨by norm_num, by norm_num⟩) (by decide)
    (by
      intro a ha b hb hne
      have ha2 : a < 2 := by simpa using ha
      have hb2 : b < 2 := by simpa using hb
      interval_cases a <;> interval_cases b <;> norm_num at hne ⊢)
    1 (by rw [hdr]; exact List.mem_singleton_self 1)
  exact ⟨h.1, h.2 0 (by norm_num) (by decide) (by rw [hdr]; decide)⟩

/-- Helper: both branches of the Python slice are prefixes, hence sublists. -/
theorem pySliceTo_sublist {α : Type} (l : List α) (k : Int) :
    (pySliceTo l k).Sublist l := by
  rw [pySliceTo]
  split
  · exact List.take_sublist _ _
  · exact List.take_sublist _ _

/-- Counterexample to C9: the sampler does not fail fast on malformed input.
With a negative maxTotal it silently returns a result, and with a words array
longer than the familiarity array the length mismatch goes entirely
undetected and a result is returned as well. -/
theorem sampler_no_fail_fast_counterexample :
    sample_vocab ["a"] [1] (-5) 0 (fun _ => 0) id = some [] ∧
    sample_vocab ["a", "b"] [1] 1 0 (fun _ => 0) id = some ["a"] := by
  constructor
  · norm_num [sample_vocab, optional_draw, argsort, gumbel_key, sentineled, sentinel,
      mandatory_indices, n_non5_samples, pySliceTo, List.insertionSort, List.orderedInsert,
      List.range_succ, List.filter_cons]
  · norm_num [sample_vocab, optional_draw, argsort, gumbel_key, sentineled, sentinel,
      mandatory_indices, n_non5_samples, pySliceTo, List.insertionSort, List.orderedInsert,
      List.range_succ, List.filter_cons]

/-- C9 (amended): the sampler performs no input validation: whenever the two
arrays have the same length it returns a result — including for negative
maxTotal or minNon5 — and a length mismatch surfaces only as an index error
(the none result) when a selected index falls outside the words array, as in
the concrete second conjunct with an empty words array. -/
theorem sampler_no_validation
    (words : List String) (fam : List Int) (maxT minN5 : Int) (gumbel : Nat → ℚ)
    (shuffle : List Nat → List Nat)
    (hlen : words.length = fam.length)
    (hsh : ∀ l, List.Perm (shuffle l) l) :
    (∃ res, sample_vocab words fam maxT minN5 gumbel shuffle = some res) ∧
    sample_vocab [] [1] 1 1 (fun _ => 0) id = none := by
  constructor
  · have hmem : ∀ x ∈ mandatory_indices fam ++ optional_draw fam maxT minN5 gumbel,
        x < fam.length := by
      intro x hx
      rcases List.mem_append.mp hx with h | h
      · exact ((mandatory_indices_spec fam).1 x h).1
      · have h2 : x ∈ argsort (gumbel_key fam gumbel) fam.length :=
          (pySliceTo_sublist _ _).mem h
        exact List.mem_range.mp ((argsort_perm _ _).mem_iff.mp h2)
    have hall : (shuffle (mandatory_indices fam
        ++ optional_draw fam maxT minN5 gumbel)).all
        (fun i => decide (i < words.length)) = true := by
      rw [List.all_eq_true]
      intro x hx
      refine decide_eq_true ?_
      rw [hlen]
      exact hmem x ((hsh _).mem_iff.mp hx)
    refine ⟨(shuffle (mandatory_indices fam ++ optional_draw fam maxT minN5 gumbel)).map
        (fun i => words.getD i ""), ?_⟩
    simp only [sample_vocab]
    rw [if_pos hall]
  · norm_num [sample_vocab, optional_draw, argsort, gumbel_key, sentineled, sentinel,
      mandatory_indices, n_non5_samples, pySliceTo, List.insertionSort, List.orderedInsert,
      List.range_succ, List.filter_cons]

/-- Witness for C9 (amended): with matching lengths and both counts negative
the sampler still returns a result, and the mismatch example returns none. -/
theorem sampler_no_validation_witness :
    (∃ res, sample_vocab ["a"] [1] (-5) (-7) (fun _ => 0) id = some res) ∧
    sample_vocab [] [1] 1 1 (fun _ => 0) id = none :=
  sampler_no_validation ["a"] [1] (-5) (-7) (fun _ => 0) id rfl (fun l => List.Perm.refl l)

/-- Helper: reading the freshly allocated reference yields the allocated
array. -/
theorem hread_alloc (h : List (List Int)) (a : List Int) :
    hread (h ++ [a]) h.length = a := by
  simp [hread, List.getD, List.get?_eq_getElem?, List.getElem?_concat_length]

/-- Helper: allocation does not disturb existing references. -/
theorem hread_alloc_ne (h : List (List Int)) (a : List Int) (r : Nat) (hr : r < h.length) :
    hread (h ++ [a]) r = hread h r := by
  simp [hread, List.getD, List.get?_eq_getElem?, List.getElem?_append, hr]

/-- Helper: reading back a written reference yields the written array. -/
theorem hread_write (h : List (List Int)) (r : Nat) (a : List Int) (hr : r < h.length) :
    hread (hwrite h r a) r = a := by
  simp [hread, hwrite, List.getD, List.get?_eq_getElem?, List.getElem?_set_self hr]

/-- Helper: a write does not disturb other references. -/
theorem hread_write_ne (h : List (List Int)) (r : Nat) (a : List Int) (r2 : Nat)
    (hne : r ≠ r2) : hread (hwrite h r a) r2 = hread h r2 := by
  simp [hread, hwrite, List.getD, List.get?_eq_getElem?, List.getElem?_set_ne hne]

/-- C10: sample_vocab never mutates its inputs: for every heap state in which
the familiarity reference is live, the words heap is returned untouched, the
familiarity array read back through the caller's reference after the call is
exactly the array before it (the sentinel overwrite goes to the np.copy), and
the computed result coincides with the pure model of the function. -/
theorem sample_vocab_heap_frame (strs : List (List String)) (h : List (List Int))
    (wordsRef famRef : Nat) (maxT minN5 : Int) (gumbel : Nat → ℚ)
    (shuffle : List Nat → List Nat) (hfam : famRef < h.length) :
    (sample_vocab_heap strs h wordsRef famRef maxT minN5 gumbel shuffle).1 = strs ∧
    hread (sample_vocab_heap strs h wordsRef famRef maxT minN5 gumbel shuffle).2.1 famRef
      = hread h famRef ∧
    (sample_vocab_heap strs h wordsRef famRef maxT minN5 gumbel shuffle).2.2
      = sample_vocab (strs.getD wordsRef []) (hread h famRef) maxT minN5 gumbel shuffle := by
  have hne : h.length ≠ famRef := by omega
  have hcopy : hread (h ++ [hread h famRef]) h.length = hread h famRef := hread_alloc h _
  have hlive : h.length < (h ++ [hread h famRef]).length := by
    rw [List.length_append]
    simp
  refine ⟨rfl, ?_, ?_⟩
  · show hread (hwrite (h ++ [hread h famRef]) h.length _) famRef = hread h famRef
    rw [hread_write_ne _ _ _ _ hne]
    exact hread_alloc_ne h _ famRef hfam
  · have hw := hread_write (h ++ [hread h famRef]) h.length
      ((hread h famRef).map fun x => if x == 5 then sentinel else x) hlive
    simp only [sample_vocab_heap, halloc, sample_vocab, mandatory_indices, optional_draw,
      n_non5_samples, gumbel_key, sentineled, hcopy, hw]
    rfl

/-- Witness for C10: a one-word heap evaluated concretely; the words heap and
the familiarity array are unchanged and the result agrees with the pure
model. -/
theorem sample_vocab_heap_frame_witness :
    (sample_vocab_heap [["a"]] [[1]] 0 0 1 0 (fun _ => 0) id).1 = [["a"]] ∧
    hread (sample_vocab_heap [["a"]] [[1]] 0 0 1 0 (fun _ => 0) id).2.1 0
      = hread [[1]] 0 ∧
    (sample_vocab_heap [["a"]] [[1]] 0 0 1 0 (fun _ => 0) id).2.2
      = sample_vocab (([["a"]] : List (List String)).getD 0 []) (hread [[1]] 0) 1 0
          (fun _ => 0) id :=
  sample_vocab_heap_frame [["a"]] [[1]] 0 0 1 0 (fun _ => 0) id (by decide)
